import Mathlib

/-!
Verification of the geocoding cache-and-concurrency engine of the
google-contacts-notion-integration repository.

The development shallowly embeds the relevant Python routines:

* `Widget Generator Tool/utils.py`:
  `_geocode_cache_key`, `batch_geocode` (deduplication, `max_requests`
  truncation, cache partition, the token-bucket `acquire_token`, and a
  linearized execution of the worker pool), `geocode_location`, and the
  per-page cache decision inside `fetch_clients_from_notion`.
* `Widget Generator Tool/geocode_cache_manager.py`: the persistent
  JSON-backed cache (`load`/`save`/`get`/`set`).
* `Widget Generator Tool/geocode_settlements.py`: `geocode_settlement`.

Python values stored in the cache are modelled by the inductive `PyVal`
(dicts as insertion-ordered association lists, which is Python's dict
semantics).  Floats are modelled as rationals.  The outbound HTTP calls
are modelled at the provider boundary by oracles supplying the provider's
response; everything on this side of that boundary is translated from the
source.  The thread pool of `batch_geocode` is modelled by one admissible
linearization: each submitted work item runs its worker body and then its
result-handling code before the next item starts.
-/

namespace GCN

set_option maxRecDepth 400000

/-- Python runtime values as they appear in the geocode caches: `None`,
floats (as rationals), strings, lists, tuples and dicts.  Dicts are
insertion-ordered association lists, mirroring Python dict semantics. -/
inductive PyVal where
  | pnone : PyVal
  | pnum : ℚ → PyVal
  | pstr : String → PyVal
  | plist : List PyVal → PyVal
  | ptuple : List PyVal → PyVal
  | pdict : List (String × PyVal) → PyVal

open PyVal

/-- Python truthiness (`if cached:` etc.): `None`, `0`, `""`, `[]`, `()`
and `{}` are falsy, everything else is truthy. -/
def pyTruthy : PyVal → Bool
  | pnone => false
  | pnum q => q != 0
  | pstr s => s != ""
  | plist xs => !xs.isEmpty
  | ptuple xs => !xs.isEmpty
  | pdict kvs => !kvs.isEmpty

/-- Test for the Python value `None`. -/
def isPNone : PyVal → Bool
  | pnone => true
  | _ => false

/-- Python `==` between a cached value and a string (used for the
`last_edited_time == edited` comparison): only a `str` can equal a `str`. -/
def pyEqStr : PyVal → String → Bool
  | pstr s, t => s == t
  | _, _ => false

/-- The in-memory cache dictionary: an insertion-ordered association list
with unique keys (Python `dict`). -/
abbrev Dict := List (String × PyVal)

/-- Python `d.get(k)` at the `Option` level (distinguishes a missing key
from a stored `None`; Python itself cannot). -/
def lookupA (k : String) : Dict → Option PyVal
  | [] => none
  | (k', v) :: rest => if k' = k then some v else lookupA k rest

/-- Python `d[k] = v`: overwrite in place if the key exists (keeping its
position), otherwise append. -/
def setA (k : String) (v : PyVal) : Dict → Dict
  | [] => [(k, v)]
  | (k', v') :: rest => if k' = k then (k, v) :: rest else (k', v') :: setA k v rest

/-- The keys of a dict, in insertion order. -/
def keysOf (d : Dict) : List String := d.map Prod.fst

/-- `_GeocodeCacheManager.get`: Python's `dict.get` returns `None` both
for a missing key and for a stored `None` — callers cannot tell them
apart.  (`geocode_cache_manager.py` line 62-64 / `utils.py` line 59-60.) -/
def mgrGet (c : Dict) (k : String) : PyVal := (lookupA k c).getD pnone

/-! ### Python string helpers

`str.strip`, `str.lower`, `str.split()` (whitespace runs) restricted to
the character classes that occur in this repository (ASCII plus the
Ukrainian Cyrillic block handled per character; Python's `str.lower` is
the full Unicode mapping, of which this is the restriction actually
exercised by the code). -/

/-- The whitespace characters recognised by Python's `str.strip()` /
`str.split()` (ASCII part: space, tab, LF, CR, VT, FF). -/
def pyIsSpace (c : Char) : Bool :=
  c.toNat = 32 || c.toNat = 9 || c.toNat = 10 || c.toNat = 13 ||
  c.toNat = 11 || c.toNat = 12

/-- Python `str.lower()` per character: ASCII `A`–`Z` and the Cyrillic
range `А`–`Я` map down by their fixed offsets; the five Ukrainian
letters outside that range are mapped explicitly; everything else is
unchanged. -/
def pyLowerChar (c : Char) : Char :=
  if 65 ≤ c.toNat ∧ c.toNat ≤ 90 then Char.ofNat (c.toNat + 32)
  else if 0x410 ≤ c.toNat ∧ c.toNat ≤ 0x42F then Char.ofNat (c.toNat + 0x20)
  else if c.toNat = 0x401 then Char.ofNat 0x451
  else if c.toNat = 0x404 then Char.ofNat 0x454
  else if c.toNat = 0x406 then Char.ofNat 0x456
  else if c.toNat = 0x407 then Char.ofNat 0x457
  else if c.toNat = 0x490 then Char.ofNat 0x491
  else c

/-- `str.strip()` on the character list: drop whitespace from both ends. -/
def stripL (l : List Char) : List Char :=
  ((l.dropWhile pyIsSpace).reverse.dropWhile pyIsSpace).reverse

/-- Worker for `str.split()`: `acc` is the current word, reversed. -/
def splitWsGo (acc : List Char) : List Char → List (List Char)
  | [] => if acc.isEmpty then [] else [acc.reverse]
  | c :: cs =>
    if pyIsSpace c then
      if acc.isEmpty then splitWsGo [] cs else acc.reverse :: splitWsGo [] cs
    else splitWsGo (c :: acc) cs

/-- Python `str.split()` with no argument: split on runs of whitespace,
discarding empty fields. -/
def splitWsL (l : List Char) : List (List Char) := splitWsGo [] l

/-- `" ".join(tokens)` on character lists. -/
def joinSp : List (List Char) → List Char
  | [] => []
  | t :: ts => match ts with
    | [] => t
    | _ :: _ => t ++ ' ' :: joinSp ts

/-- The query normalization `" ".join(q.strip().lower().split())` used by
`_geocode_cache_key` (utils.py line 95) and by the deduplication step of
`batch_geocode` (utils.py line 260), on character lists. -/
def normL (l : List Char) : List Char :=
  joinSp (splitWsL ((stripL l).map pyLowerChar))

/-- String-level wrapper of `normL`. -/
def normQuery (s : String) : String := ⟨normL s.data⟩

/-! ### SHA-1 (`hashlib.sha1(norm.encode("utf-8")).hexdigest()`)

Translated from the SHA-1 specification used by `hashlib`; machine words
are naturals reduced mod `2^32`. -/

/-- Reduce mod `2^32`. -/
def m32 (n : ℕ) : ℕ := n % 4294967296

/-- Left-rotation of a 32-bit word by `k`. -/
def rotl (k n : ℕ) : ℕ := m32 ((n <<< k) ||| (n >>> (32 - k)))

/-- UTF-8 encoding of one code point. -/
def utf8Char (n : ℕ) : List ℕ :=
  if n < 0x80 then [n]
  else if n < 0x800 then [0xC0 ||| (n >>> 6), 0x80 ||| (n &&& 0x3F)]
  else if n < 0x10000 then
    [0xE0 ||| (n >>> 12), 0x80 ||| ((n >>> 6) &&& 0x3F), 0x80 ||| (n &&& 0x3F)]
  else
    [0xF0 ||| (n >>> 18), 0x80 ||| ((n >>> 12) &&& 0x3F),
     0x80 ||| ((n >>> 6) &&& 0x3F), 0x80 ||| (n &&& 0x3F)]

/-- `s.encode("utf-8")` as a byte list. -/
def utf8Bytes (s : String) : List ℕ :=
  (s.data.map (fun c => utf8Char c.toNat)).flatten

/-- Big-endian byte expansion of `n` into `w` bytes. -/
def beBytes : ℕ → ℕ → List ℕ
  | 0, _ => []
  | w + 1, n => beBytes w (n >>> 8) ++ [n &&& 0xFF]

/-- SHA-1 message padding: append `0x80`, zeros to 56 mod 64, then the
bit length as 8 big-endian bytes. -/
def padMsg (msg : List ℕ) : List ℕ :=
  let k := (56 + 64 - ((msg.length + 1) % 64)) % 64
  msg ++ 0x80 :: List.replicate k 0 ++ beBytes 8 (8 * msg.length)

/-- Split into 64-byte chunks (fuel-driven so the kernel can reduce it). -/
def chunksGo : ℕ → List ℕ → List (List ℕ)
  | 0, _ => []
  | _, [] => []
  | fuel + 1, l => l.take 64 :: chunksGo fuel (l.drop 64)

/-- All 64-byte chunks of a padded message. -/
def chunks64 (l : List ℕ) : List (List ℕ) := chunksGo l.length l

/-- Pack bytes into big-endian 32-bit words. -/
def wordsGo : ℕ → List ℕ → List ℕ
  | 0, _ => []
  | _, [] => []
  | fuel + 1, b0 :: rest =>
    match rest with
    | b1 :: b2 :: b3 :: rest' =>
      ((((b0 <<< 8) ||| b1) <<< 8 ||| b2) <<< 8 ||| b3) :: wordsGo fuel rest'
    | _ => []

/-- Message-schedule extension: `acc` holds the words produced so far,
most recent first; each new word is
`rotl1 (w[i-3] xor w[i-8] xor w[i-14] xor w[i-16])`. -/
def extendGo : ℕ → List ℕ → List ℕ
  | 0, acc => acc
  | n + 1, acc =>
    let w3 := acc.getD 2 0
    let w8 := acc.getD 7 0
    let w14 := acc.getD 13 0
    let w16 := acc.getD 15 0
    extendGo n (rotl 1 ((w3 ^^^ w8) ^^^ (w14 ^^^ w16)) :: acc)

/-- The 80-word message schedule of one chunk. -/
def extendW (ws16 : List ℕ) : List ℕ := (extendGo 64 ws16.reverse).reverse

/-- The 80 compression rounds; `i` is the round index selecting `f`/`k`. -/
def roundsGo : ℕ → List ℕ → ℕ × ℕ × ℕ × ℕ × ℕ → ℕ × ℕ × ℕ × ℕ × ℕ
  | _, [], st => st
  | i, w :: ws, (a, b, c, d, e) =>
    let fk : ℕ × ℕ :=
      if i < 20 then ((b &&& c) ||| ((b ^^^ 0xFFFFFFFF) &&& d), 0x5A827999)
      else if i < 40 then ((b ^^^ c) ^^^ d, 0x6ED9EBA1)
      else if i < 60 then ((b &&& c) ||| (b &&& d) ||| (c &&& d), 0x8F1BBCDC)
      else ((b ^^^ c) ^^^ d, 0xCA62C1D6)
    let temp := m32 (rotl 5 a + fk.1 + e + fk.2 + w)
    roundsGo (i + 1) ws (temp, a, rotl 30 b, c, d)

/-- Process one 64-byte chunk, updating the five hash words. -/
def processChunk (h : ℕ × ℕ × ℕ × ℕ × ℕ) (chunk : List ℕ) : ℕ × ℕ × ℕ × ℕ × ℕ :=
  let ws := extendW (wordsGo chunk.length chunk)
  let (h0, h1, h2, h3, h4) := h
  let (a, b, c, d, e) := roundsGo 0 ws (h0, h1, h2, h3, h4)
  (m32 (h0 + a), m32 (h1 + b), m32 (h2 + c), m32 (h3 + d), m32 (h4 + e))

/-- SHA-1 of a byte list, as the five 32-bit hash words. -/
def sha1Nums (msg : List ℕ) : ℕ × ℕ × ℕ × ℕ × ℕ :=
  (chunks64 (padMsg msg)).foldl processChunk
    (0x67452301, 0xEFCDAB89, 0x98BADCFE, 0x10325476, 0xC3D2E1F0)

/-- One lowercase hex digit. -/
def hexDigit (n : ℕ) : Char := Char.ofNat (if n < 10 then 48 + n else 87 + n)

/-- Fixed-width lowercase hex rendering, most significant nibble first. -/
def hexGo : ℕ → ℕ → List Char
  | 0, _ => []
  | w + 1, n => hexGo w (n >>> 4) ++ [hexDigit (n &&& 0xF)]

/-- `hexdigest()` of SHA-1. -/
def sha1Hex (msg : List ℕ) : String :=
  let (h0, h1, h2, h3, h4) := sha1Nums msg
  ⟨hexGo 8 h0 ++ hexGo 8 h1 ++ hexGo 8 h2 ++ hexGo 8 h3 ++ hexGo 8 h4⟩

/-- `_geocode_cache_key` (utils.py lines 91-96): normalize the query and
return the SHA-1 hex digest of its UTF-8 encoding. -/
def geocodeCacheKey (q : String) : String := sha1Hex (utf8Bytes (normQuery q))

/-! ### `batch_geocode` (utils.py lines 233-404)

The provider is abstracted at the HTTP boundary by an oracle
`geo : String → Option (ℚ × ℚ)`: `some (lat, lng)` when the worker's
request/parse succeeds, `none` when the request fails or returns no
result (the worker catches every exception and returns `None`).  The
thread pool is modelled by the linearization in which each submitted
queue item runs its worker body and then its completion handler before
the next item starts. -/

/-- The deduplication loop of `batch_geocode` (utils.py lines 254-265):
keep the first original spelling of each distinct normalized address.
`seen` is the set of normalized keys already taken. -/
def dedupGo (seen : List String) : List String → List String
  | [] => []
  | a :: rest =>
    let n := normQuery a
    if n ∈ seen then dedupGo seen rest else a :: dedupGo (n :: seen) rest

/-- `batch_geocode`'s deduplicated input list `uniq`. -/
def dedupAddrs (addresses : List String) : List String := dedupGo [] addresses

/-- `uniq = uniq[:max_requests]` when `max_requests is not None`
(utils.py lines 267-268). -/
def truncOpt (maxRequests : Option ℕ) (l : List String) : List String :=
  match maxRequests with
  | none => l
  | some k => l.take k

/-- The cache-partition loop (utils.py lines 270-280): cache hits go into
the result dict, each miss is appended to the work queue — twice, per
the duplicated `to_query.append(a)` on lines 279-280. -/
def cachePartition (cache : Dict) : List String → Dict × List String
  | [] => ([], [])
  | a :: rest =>
    let cached := mgrGet cache (geocodeCacheKey a)
    let (res, q) := cachePartition cache rest
    if pyTruthy cached then ((a, cached) :: res, q) else (res, a :: a :: q)

/-- The work queue `to_query` that `batch_geocode` dispatches to the
worker pool, for a given input list, `max_requests` and starting cache. -/
def workQueue (addresses : List String) (maxRequests : Option ℕ) (cache : Dict) :
    List String :=
  (cachePartition cache (truncOpt maxRequests (dedupAddrs addresses))).2

/-- State of a running batch: the result dict, the shared cache, the
`success_count`, the number of provider lookups issued, and the number of
`_save_geocode_cache()` flushes performed. -/
structure BatchSt where
  results : Dict
  cache : Dict
  success : ℕ
  lookups : ℕ
  saves : ℕ

/-- One queue item under the linearized schedule: the worker body
(double-check the cache, else acquire a token and call the provider;
any exception or empty result yields `None` — utils.py lines 316-343)
followed by its completion handler (utils.py lines 364-389: truthy
coords are written to the result dict and persisted to the cache, with
an autosave every `autosave_every` successes; otherwise the result dict
records `None`). -/
def stepItem (geo : String → Option (ℚ × ℚ)) (autosaveEvery : ℕ) (st : BatchSt)
    (addr : String) : BatchSt :=
  let key := geocodeCacheKey addr
  let cached := mgrGet st.cache key
  let wres : PyVal × ℕ :=
    if pyTruthy cached then (cached, st.lookups)
    else
      match geo addr with
      | some (la, lo) => (pdict [("lat", pnum la), ("lng", pnum lo)], st.lookups + 1)
      | none => (pnone, st.lookups + 1)
  if pyTruthy wres.1 then
    let sc := st.success + 1
    { results := setA addr wres.1 st.results
      cache := setA key wres.1 st.cache
      success := sc
      lookups := wres.2
      saves := if autosaveEvery ≠ 0 ∧ sc % autosaveEvery = 0 then st.saves + 1 else st.saves }
  else
    { st with results := setA addr pnone st.results, lookups := wres.2 }

/-- The pool phase and the final unconditional flush (utils.py lines
345-401). -/
def runQueue (geo : String → Option (ℚ × ℚ)) (autosaveEvery : ℕ) (st : BatchSt) :
    List String → BatchSt
  | [] => st
  | a :: rest => runQueue geo autosaveEvery (stepItem geo autosaveEvery st a) rest

/-- `batch_geocode` under the linearized schedule.  An empty input list
returns immediately; an all-hit partition returns the cached results
without the final flush (utils.py lines 245-246, 282-283); otherwise the
queue is processed and the cache flushed once more. -/
def batchGeocode (addresses : List String) (maxRequests : Option ℕ)
    (autosaveEvery : ℕ) (cache : Dict) (geo : String → Option (ℚ × ℚ)) : BatchSt :=
  if addresses.isEmpty then
    { results := [], cache := cache, success := 0, lookups := 0, saves := 0 }
  else
    let uniq := truncOpt maxRequests (dedupAddrs addresses)
    let pr := cachePartition cache uniq
    if pr.2.isEmpty then
      { results := pr.1, cache := cache, success := 0, lookups := 0, saves := 0 }
    else
      let fin := runQueue geo autosaveEvery
        { results := pr.1, cache := cache, success := 0, lookups := 0, saves := 0 } pr.2
      { fin with saves := fin.saves + 1 }

/-! ### The token bucket (utils.py lines 296-313)

`acquire_token` loops: under the lock it refills
`tokens = min(burst, tokens + elapsed*rate)` when the refill is positive
and consumes a token when at least one is available, otherwise it sleeps
and retries.  One loop iteration is `rlStep`; the `Bool` records whether
a token was consumed (the call returned).  Floats are modelled as
rationals. -/

/-- One iteration of the `acquire_token` loop. -/
def rlStep (burst rate elapsed tokens : ℚ) : ℚ × Bool :=
  let refill := elapsed * rate
  let t1 := if refill > 0 then min burst (tokens + refill) else tokens
  if t1 ≥ 1 then (t1 - 1, true) else (t1, false)

/-- Token count after a sequence of loop iterations, each with its own
`(rate, elapsed)` pair. -/
def rlRun (burst : ℚ) : List (ℚ × ℚ) → ℚ → ℚ
  | [], tokens => tokens
  | (rate, elapsed) :: rest, tokens => rlRun burst rest (rlStep burst rate elapsed tokens).1

/-! ### `geocode_location` (utils.py lines 162-230)

The provider is abstracted at the HTTP boundary: for each query the
oracle reports a `requests.RequestException` (timeout, transport error,
or a non-success status raised by `raise_for_status`), a body that is not
valid JSON (`response.json()` raises a `ValueError` subclass), or parsed
JSON data.  Everything after that boundary — truthiness and length
checks, subscripting, key lookup, `float()` conversion, and the
`except (requests.RequestException, ValueError)` clause — is translated
from the source. -/

/-- Parsed JSON values. -/
inductive JVal where
  | jnull : JVal
  | jnum : ℚ → JVal
  | jstr : String → JVal
  | jarr : List JVal → JVal
  | jobj : List (String × JVal) → JVal

open JVal

/-- Python exceptions that the translated code can raise. -/
inductive PyErr where
  | requestException
  | valueError
  | keyError
  | typeError
  | indexError
  | nameError
deriving DecidableEq

/-- One provider interaction, seen at the HTTP boundary. -/
inductive Resp where
  | netError : Resp
  | badJson : Resp
  | ok : JVal → Resp

/-- Python truthiness for JSON data. -/
def jTruthy : JVal → Bool
  | jnull => false
  | jnum q => q != 0
  | jstr s => s != ""
  | jarr xs => !xs.isEmpty
  | jobj kvs => !kvs.isEmpty

/-- Key lookup in a JSON object. -/
def jLookup (k : String) : List (String × JVal) → Option JVal
  | [] => none
  | (k', v) :: rest => if k' = k then some v else jLookup k rest

/-- Python `len(data)`: defined for strings, lists and dicts; `TypeError`
otherwise. -/
def pyLen : JVal → Except PyErr ℕ
  | jstr s => .ok s.length
  | jarr xs => .ok xs.length
  | jobj kvs => .ok kvs.length
  | _ => .error .typeError

/-- Python `data[0]`: first element of a list, first character of a
string, `KeyError` on a dict (its keys are strings), `TypeError` on
numbers and `None`. -/
def pySub0 : JVal → Except PyErr JVal
  | jarr (x :: _) => .ok x
  | jarr [] => .error .indexError
  | jstr s =>
    match s.data with
    | c :: _ => .ok (jstr ⟨[c]⟩)
    | [] => .error .indexError
  | jobj _ => .error .keyError
  | _ => .error .typeError

/-- Python `result[k]` for a string key: object lookup (`KeyError` when
missing), `TypeError` on every non-object. -/
def jGetItem (v : JVal) (k : String) : Except PyErr JVal :=
  match v with
  | jobj kvs =>
    match jLookup k kvs with
    | some x => .ok x
    | none => .error .keyError
  | _ => .error .typeError

/-- String-level `str.strip()`. -/
def pyStripStr (s : String) : String := ⟨stripL s.data⟩

/-- Digit value of a character, if any. -/
def digVal (c : Char) : Option ℕ :=
  if 48 ≤ c.toNat ∧ c.toNat ≤ 57 then some (c.toNat - 48) else none

/-- Accumulating decimal-digit parser; fails on any non-digit. -/
def natOfDigitsGo (acc : ℕ) : List Char → Option ℕ
  | [] => some acc
  | c :: cs =>
    match digVal c with
    | some d => natOfDigitsGo (10 * acc + d) cs
    | none => none

/-- Python `float(s)` restricted to the plain signed decimal forms the
geocoding providers emit (`"50.4501"`); anything else is a `ValueError`. -/
def parseFloatStr (s : String) : Option ℚ :=
  let l := stripL s.data
  let sl : ℚ × List Char :=
    match l with
    | '-' :: r => (-1, r)
    | '+' :: r => (1, r)
    | _ => (1, l)
  match (sl.2.splitOn '.') with
  | [ip] =>
    if ip.isEmpty then none
    else (natOfDigitsGo 0 ip).map (fun n => sl.1 * n)
  | [ip, fp] =>
    if ip.isEmpty && fp.isEmpty then none
    else
      match natOfDigitsGo 0 ip, natOfDigitsGo 0 fp with
      | some n, some f => some (sl.1 * (n + (f : ℚ) / (10 : ℚ) ^ fp.length))
      | _, _ => none
  | _ => none

/-- Python `float(x)` on a JSON value: numbers pass through, strings are
parsed (`ValueError` on failure), everything else is a `TypeError`. -/
def pyFloatJ : JVal → Except PyErr ℚ
  | jnum q => .ok q
  | jstr s =>
    match parseFloatStr s with
    | some q => .ok q
    | none => .error .valueError
  | _ => .error .typeError

/-- The body of one loop iteration of `geocode_location` (utils.py lines
206-228) given the provider's response: `.ok (some c)` is the `return`,
`.ok none` means fall through to the next attempt (including the caught
`RequestException` / `ValueError` cases), `.error` is an exception that
escapes the `except` clause. -/
def runAttempt : Resp → Except PyErr (Option (ℚ × ℚ))
  | .netError => .ok none
  | .badJson => .ok none
  | .ok data =>
    if jTruthy data then
      match pyLen data with
      | .error e => .error e
      | .ok n =>
        if n > 0 then
          match pySub0 data with
          | .error e => .error e
          | .ok item =>
            match jGetItem item "lat" with
            | .error e => .error e
            | .ok latv =>
              match pyFloatJ latv with
              | .error .valueError => .ok none
              | .error e => .error e
              | .ok la =>
                match jGetItem item "lon" with
                | .error e => .error e
                | .ok lonv =>
                  match pyFloatJ lonv with
                  | .error .valueError => .ok none
                  | .error e => .error e
                  | .ok lo => .ok (some (la, lo))
        else .ok none
    else .ok none

/-- The attempt loop (utils.py lines 202-230): empty queries are skipped,
handled failures continue to the next attempt, the fall-off-the-end
result is `None`. -/
def tryQueries (oracle : String → Resp) : List String → Except PyErr (Option (ℚ × ℚ))
  | [] => .ok none
  | q :: rest =>
    if q = "" then tryQueries oracle rest
    else
      match runAttempt (oracle q) with
      | .ok (some c) => .ok (some c)
      | .ok none => tryQueries oracle rest
      | .error e => .error e

/-- Replacement worker for Python `str.replace` on character lists
(fuel-driven so the kernel can reduce it; `pat` is nonempty at every
call site, so one unit of fuel per consumed character suffices). -/
def replaceGo (pat rep : List Char) : ℕ → List Char → List Char
  | 0, l => l
  | _, [] => []
  | fuel + 1, c :: cs =>
    if pat.isPrefixOf (c :: cs) then rep ++ replaceGo pat rep fuel ((c :: cs).drop pat.length)
    else c :: replaceGo pat rep fuel cs

/-- Python `s.replace(pat, rep)` for a nonempty pattern. -/
def pyReplace (s pat rep : String) : String :=
  if pat = "" then s else ⟨replaceGo pat.data rep.data s.data.length s.data⟩

/-- Splitting worker for Python `s.split(",")`; `acc` is the current
field, reversed. -/
def splitCommaGo (acc : List Char) : List Char → List (List Char)
  | [] => [acc.reverse]
  | c :: cs => if c = ',' then acc.reverse :: splitCommaGo [] cs else splitCommaGo (c :: acc) cs

/-- Python `s.split(",")`. -/
def pySplitComma (s : String) : List String := (splitCommaGo [] s.data).map (⟨·⟩)

/-- `", ".join(terms)`. -/
def joinCommaSp : List String → String
  | [] => ""
  | [t] => t
  | t :: ts => t ++ ", " ++ joinCommaSp ts

/-- The Ukrainian-address cleanup applied to each comma-separated part
(utils.py lines 182-189): drop the administrative-abbreviation markers,
then strip. -/
def cleanPart (p : String) : String :=
  pyStripStr (pyReplace (pyReplace (pyReplace (pyReplace (pyReplace p
    " обл." "") " р-н" "") "с. " "") "м. " "") "смт. " "")

/-- `search_terms` (utils.py lines 178-191): split on commas, strip each
part, clean it, and keep the nonempty results. -/
def searchTerms (loc : String) : List String :=
  (((pySplitComma loc).map pyStripStr).map cleanPart).filter (· ≠ "")

/-- `geocode_location` (utils.py lines 162-230): empty or all-whitespace
input resolves to `None` immediately; otherwise the three progressively
broader queries are attempted in order. -/
def geocodeLocation (loc : String) (oracle : String → Resp) :
    Except PyErr (Option (ℚ × ℚ)) :=
  if loc = "" || pyStripStr loc = "" then .ok none
  else
    let terms := searchTerms loc
    tryQueries oracle [joinCommaSp terms, terms.headD "", loc]

/-- The provider responses whose failure modes `geocode_location`
handles: a request exception (timeout, transport error, non-success
status), an invalid-JSON body, or a falsy result payload (in particular
an empty result list). -/
def handledFailure : Resp → Bool
  | .netError => true
  | .badJson => true
  | .ok d => !jTruthy d

/-! ### `geocode_settlement` (geocode_settlements.py lines 111-162)

The Google Maps call is abstracted at the HTTP boundary: the oracle
reports a `requests.RequestException`, a payload with `status == "OK"`
and a first result carrying a location, or anything else (non-OK status
or no results).  The cache check, the negative-caching writes and the
return paths are translated from the source. -/

/-- String-level `str.lower()` (per character, see `pyLowerChar`). -/
def pyLowerStr (s : String) : String := ⟨s.data.map pyLowerChar⟩

/-- One Google geocoding interaction at the HTTP boundary. -/
inductive GResp where
  | reqError : GResp
  | okResult : ℚ → ℚ → GResp
  | noResult : GResp

/-- Result of one `geocode_settlement` call: the returned Python value
(`(lat, lng)` tuple, cached value, or `None`), the cache afterwards, and
whether a network request was issued. -/
structure SettleOut where
  result : PyVal
  cache : Dict
  network : Bool

/-- `geocode_settlement` (geocode_settlements.py lines 111-162):
`cache_key = f"{oblast}|{settlement}".lower()`; a `cached is not None`
guard short-circuits; on a successful response the `(lat, lng)` tuple is
cached and returned; on a no-result response `None` is cached and
returned; on a `RequestException` `None` is returned without caching. -/
def geocodeSettlement (cache : Dict) (oblast settlement : String) (resp : GResp) :
    SettleOut :=
  let key := pyLowerStr (oblast ++ "|" ++ settlement)
  let cached := mgrGet cache key
  if ¬ isPNone cached then { result := cached, cache := cache, network := false }
  else
    match resp with
    | .okResult la lo =>
      { result := ptuple [pnum la, pnum lo]
        cache := setA key (ptuple [pnum la, pnum lo]) cache
        network := true }
    | .noResult => { result := pnone, cache := setA key pnone cache, network := true }
    | .reqError => { result := pnone, cache := cache, network := true }

/-! ### Record-level cache decision in `fetch_clients_from_notion`
(utils.py lines 963-1036)

For each pending page the loop consults the page-level cache entry
`page::<id>`; a fresh entry (matching `last_edited_time`) or a raw
coordinate entry resolves the page directly.  Every page that falls
through to the address-level fallback executes
`addr_cached = _GEOCODE_CACHE.get(addr_key)` (utils.py line 999) — but no
name `_GEOCODE_CACHE` is defined anywhere in the module, so that line
raises a `NameError`, which the surrounding
`except (requests.RequestException, KeyError, ValueError, AttributeError)`
clause does not catch.  Everything from line 999 on is therefore
unreachable dead code, which the model reflects with `.error .nameError`. -/

/-- Python `v.get(k)` on a dict value (only called behind `isinstance`
guards in the source). -/
def dictGet (v : PyVal) (k : String) : PyVal :=
  match v with
  | pdict kvs => (lookupA k kvs).getD pnone
  | _ => pnone

/-- Python `v[k]` on a cached value. -/
def pySubscript (v : PyVal) (k : String) : Except PyErr PyVal :=
  match v with
  | pdict kvs =>
    match lookupA k kvs with
    | some x => .ok x
    | none => .error .keyError
  | _ => .error .typeError

/-- `isinstance(v, dict)`. -/
def isDictB : PyVal → Bool
  | pdict _ => true
  | _ => false

/-- The per-page cache decision (utils.py lines 971-1032): `.ok (some
(lat, lng))` when the page resolves from its page-level entry, `.error
.nameError` whenever the loop body reaches the address-level fallback
(line 999). -/
def resolvePage (cache : Dict) (pid : Option String) (edited : String) :
    Except PyErr (Option (PyVal × PyVal)) :=
  let pageCached : PyVal :=
    match pid with
    | some p => mgrGet cache ("page::" ++ p)
    | none => pnone
  if pyTruthy pageCached then
    if isDictB pageCached && pyTruthy (dictGet pageCached "coords") &&
        pyEqStr (dictGet pageCached "last_edited_time") edited then
      match pySubscript (dictGet pageCached "coords") "lat" with
      | .error e => .error e
      | .ok la =>
        match pySubscript (dictGet pageCached "coords") "lng" with
        | .error e => .error e
        | .ok lo => .ok (some (la, lo))
    else if isDictB pageCached && pyTruthy (dictGet pageCached "lat") then
      .ok (some (dictGet pageCached "lat", dictGet pageCached "lng"))
    else .error .nameError
  else .error .nameError

/-! ### Cache-mutation steps (for the never-weakened invariant)

Every write into the persistent geocode cache performed by the geocoding
routines, as one step type: a full `geocode_settlement` call, the
completion handler of a `batch_geocode` worker (which writes only truthy
coordinate values, utils.py lines 369-384), and the page-level entry
writes of `fetch_clients_from_notion` (utils.py lines 1015-1027 and
1070-1081, always a nonempty dict). -/

inductive CacheStep where
  | settle : String → String → GResp → CacheStep
  | batchResult : String → PyVal → CacheStep
  | pageWrite : String → PyVal → String → String → CacheStep

/-- Effect of one cache-mutation step on the cache. -/
def applyStep (c : Dict) : CacheStep → Dict
  | .settle ob st resp => (geocodeSettlement c ob st resp).cache
  | .batchResult addr v =>
    if pyTruthy v then setA (geocodeCacheKey addr) v c else c
  | .pageWrite pid coords edited place =>
    setA ("page::" ++ pid)
      (pdict [("coords", coords), ("last_edited_time", pstr edited),
              ("address", pstr place)]) c

/-! ### Persistence (`geocode_cache_manager.py` lines 26-60)

`save()` serializes the in-memory dict as one JSON document; `load()`
parses it back, building the dict in on-disk entry order.  JSON has no
tuple type: `json.dump` renders a Python tuple as a JSON array, which
`json.load` reads back as a Python list.  `jencode` is the
value-level effect of that dump/load composition; the on-disk document
is modelled as the list of encoded entries, in an arbitrary order. -/

mutual

/-- Value-level effect of a `json.dump` / `json.load` round trip:
tuples come back as lists, everything else survives structurally. -/
def jencode : PyVal → PyVal
  | pnone => pnone
  | pnum q => pnum q
  | pstr s => pstr s
  | plist xs => plist (jencodeL xs)
  | ptuple xs => plist (jencodeL xs)
  | pdict kvs => pdict (jencodeKV kvs)

/-- `jencode` on a list of values. -/
def jencodeL : List PyVal → List PyVal
  | [] => []
  | x :: xs => jencode x :: jencodeL xs

/-- `jencode` on the entries of a dict. -/
def jencodeKV : List (String × PyVal) → List (String × PyVal)
  | [] => []
  | (k, v) :: kvs => (k, jencode v) :: jencodeKV kvs

end

mutual

/-- A value containing no tuple (hence JSON-faithful). -/
def tupleFreeB : PyVal → Bool
  | pnone => true
  | pnum _ => true
  | pstr _ => true
  | plist xs => tupleFreeL xs
  | ptuple _ => false
  | pdict kvs => tupleFreeKV kvs

/-- `tupleFreeB` over a list of values. -/
def tupleFreeL : List PyVal → Bool
  | [] => true
  | x :: xs => tupleFreeB x && tupleFreeL xs

/-- `tupleFreeB` over dict entries. -/
def tupleFreeKV : List (String × PyVal) → Bool
  | [] => true
  | (_, v) :: kvs => tupleFreeB v && tupleFreeKV kvs

end

/-- `save()`: the entries written to disk, values JSON-encoded. -/
def saveCache (d : Dict) : List (String × PyVal) := jencodeKV d

/-- `load()`: rebuild the dict from the on-disk entries in file order
(later duplicates would override, as in `json.load`). -/
def loadCache (f : List (String × PyVal)) : Dict :=
  f.foldl (fun d kv => setA kv.1 kv.2 d) []

/-! ## Lemmas about the dict operations -/

theorem mem_keysOf_setA {a k : String} {v : PyVal} {d : Dict} :
    a ∈ keysOf (setA k v d) ↔ a = k ∨ a ∈ keysOf d := by
  induction d with
  | nil => simp [setA, keysOf]
  | cons kv rest ih =>
    obtain ⟨k', v'⟩ := kv
    by_cases h : k' = k
    · subst h
      have hset : setA k' v ((k', v') :: rest) = (k', v) :: rest := by simp [setA]
      rw [hset]
      simp only [keysOf, List.map_cons, List.mem_cons]
      tauto
    · simp only [setA, if_neg h, keysOf, List.map_cons, List.mem_cons]
      simp only [keysOf] at ih
      tauto

theorem lookupA_setA_self (k : String) (v : PyVal) (d : Dict) :
    lookupA k (setA k v d) = some v := by
  induction d with
  | nil => simp [setA, lookupA]
  | cons kv rest ih =>
    obtain ⟨k', v'⟩ := kv
    by_cases h : k' = k
    · subst h
      simp [setA, lookupA]
    · simp [setA, lookupA, h, ih]

theorem lookupA_setA_other {a k : String} (h : a ≠ k) (v : PyVal) (d : Dict) :
    lookupA a (setA k v d) = lookupA a d := by
  induction d with
  | nil => simp [setA, lookupA, Ne.symm h]
  | cons kv rest ih =>
    obtain ⟨k', v'⟩ := kv
    by_cases hk : k' = k
    · subst hk
      simp [setA, lookupA, Ne.symm h]
    · simp only [setA, if_neg hk, lookupA]
      by_cases ha : k' = a
      · simp [ha]
      · simp [ha, ih]

/-! ## Lemmas about the `batch_geocode` model -/

theorem cachePartition_mem (cache : Dict) (uniq : List String) (a : String) :
    (a ∈ keysOf (cachePartition cache uniq).1 ∨ a ∈ (cachePartition cache uniq).2) ↔
      a ∈ uniq := by
  induction uniq with
  | nil => simp [cachePartition, keysOf]
  | cons b rest ih =>
    simp only [cachePartition]
    split
    · simp only [keysOf, List.map_cons, List.mem_cons, List.mem_cons]
      rw [keysOf] at ih
      tauto
    · simp only [List.mem_cons, List.mem_cons]
      tauto

theorem stepItem_results_eq (geo : String → Option (ℚ × ℚ)) (ae : ℕ) (st : BatchSt)
    (addr : String) :
    ∃ x, (stepItem geo ae st addr).results = setA addr x st.results := by
  simp only [stepItem]
  repeat' split
  all_goals exact ⟨_, rfl⟩

theorem stepItem_results_mem (geo : String → Option (ℚ × ℚ)) (ae : ℕ) (st : BatchSt)
    (addr a : String) :
    a ∈ keysOf (stepItem geo ae st addr).results ↔ a = addr ∨ a ∈ keysOf st.results := by
  obtain ⟨x, hx⟩ := stepItem_results_eq geo ae st addr
  rw [hx, mem_keysOf_setA]

theorem runQueue_results_mem (geo : String → Option (ℚ × ℚ)) (ae : ℕ)
    (q : List String) (st : BatchSt) (a : String) :
    a ∈ keysOf (runQueue geo ae st q).results ↔ a ∈ keysOf st.results ∨ a ∈ q := by
  induction q generalizing st with
  | nil => simp [runQueue]
  | cons b rest ih =>
    simp only [runQueue, ih, stepItem_results_mem, List.mem_cons]
    tauto

theorem batchGeocode_results_mem (addrs : List String) (mreq : Option ℕ) (ae : ℕ)
    (cache : Dict) (geo : String → Option (ℚ × ℚ)) (a : String) :
    a ∈ keysOf (batchGeocode addrs mreq ae cache geo).results ↔
      a ∈ truncOpt mreq (dedupAddrs addrs) := by
  have hpart := cachePartition_mem cache (truncOpt mreq (dedupAddrs addrs)) a
  simp only [batchGeocode]
  split
  · next hemp =>
    have haddrs : addrs = [] := by
      cases addrs with
      | nil => rfl
      | cons x xs => simp [List.isEmpty] at hemp
    subst haddrs
    cases mreq <;> simp [keysOf, dedupAddrs, dedupGo, truncOpt]
  · split
    · next hq =>
      have hq' : (cachePartition cache (truncOpt mreq (dedupAddrs addrs))).2 = [] := by
        cases hh : (cachePartition cache (truncOpt mreq (dedupAddrs addrs))).2 with
        | nil => rfl
        | cons x xs => rw [hh] at hq; simp [List.isEmpty] at hq
      rw [hq'] at hpart
      simp only [List.not_mem_nil, or_false] at hpart
      exact hpart
    · rw [runQueue_results_mem]
      exact hpart

/-! ## Claims C1, C4, C6 — `batch_geocode` result coverage, work queue,
`max_requests` truncation -/

/-- C1 counterexample: for the input `["Kyiv", "kyiv ", "KYIV"]` (empty
starting cache, provider succeeding with fixed coordinates) the returned
map does NOT contain three keys: its key list is exactly `["Kyiv"]`, and
the original input string `"kyiv "` is absent.  The claim that the
result map covers every original input address (with exactly the three
distinct original strings as keys) is therefore false of the code. -/
theorem C1_counterexample :
    (batchGeocode ["Kyiv", "kyiv ", "KYIV"] none 20 []
        (fun _ => some (50, 30))).results.map Prod.fst = ["Kyiv"] ∧
    lookupA "kyiv " (batchGeocode ["Kyiv", "kyiv ", "KYIV"] none 20 []
        (fun _ => some (50, 30))).results = none :=
  ⟨by decide, rfl⟩

/-- C1 (amended): for every input address list (with `max_requests`
unset), the keys of the returned map are exactly the deduplication
representatives — the first original spelling of each distinct
normalized address — each mapped to its resolved coordinates or `None`;
for `["Kyiv", "kyiv ", "KYIV"]` with a succeeding provider the map is
exactly `{"Kyiv": coords}` and, under the linearized schedule, one
provider lookup occurs. -/
theorem C1_results_cover_dedup_reps :
    (∀ (addrs : List String) (ae : ℕ) (cache : Dict)
        (geo : String → Option (ℚ × ℚ)) (a : String),
      a ∈ keysOf (batchGeocode addrs none ae cache geo).results ↔
        a ∈ dedupAddrs addrs) ∧
    (batchGeocode ["Kyiv", "kyiv ", "KYIV"] none 20 []
        (fun _ => some (50, 30))).results.map Prod.fst = ["Kyiv"] ∧
    lookupA "Kyiv" (batchGeocode ["Kyiv", "kyiv ", "KYIV"] none 20 []
        (fun _ => some (50, 30))).results =
      some (pdict [("lat", pnum 50), ("lng", pnum 30)]) ∧
    (batchGeocode ["Kyiv", "kyiv ", "KYIV"] none 20 []
        (fun _ => some (50, 30))).lookups = 1 := by
  refine ⟨fun addrs ae cache geo a => ?_, by decide, rfl, by decide⟩
  simpa [truncOpt] using batchGeocode_results_mem addrs none ae cache geo a

/-- C4: the work queue `to_query` does NOT contain each cache-missed
address at most once — the duplicated `to_query.append(a)` (utils.py
lines 279-280) enqueues every miss twice.  For the single-address cold
input `["Kyiv"]` the queue is `["Kyiv", "Kyiv"]`, and when the provider
fails to resolve the address, even the fully sequential schedule issues
two network lookups for it. -/
theorem C4_workqueue_enqueues_twice :
    workQueue ["Kyiv"] none [] = ["Kyiv", "Kyiv"] ∧
    (batchGeocode ["Kyiv"] none 20 [] (fun _ => none)).lookups = 2 :=
  ⟨by decide, by decide⟩

/-- C6 counterexample: with `max_requests = 1` and input `["a", "b"]`,
the address `"b"` dropped by the truncation is not mapped to `None` — it
is absent from the returned map altogether (empty starting cache); and
with a starting cache holding coordinates for `"b"`, the truncation
drops the cache hit `"b"` as well, showing that the deduplicated input
list, not the work queue of cache misses, is truncated. -/
theorem C6_counterexample :
    "b" ∉ keysOf (batchGeocode ["a", "b"] (some 1) 20 []
        (fun _ => none)).results ∧
    "b" ∉ keysOf (batchGeocode ["a", "b"] (some 1) 20
        [(geocodeCacheKey "b", pdict [("lat", pnum 1), ("lng", pnum 2)])]
        (fun _ => none)).results :=
  ⟨by decide, by decide⟩

/-- C6 (amended): when `max_requests` is set, `batch_geocode` truncates
the deduplicated input list to that many entries before consulting the
cache; the keys of the returned map are exactly the first
`max_requests` deduplication representatives, and every address beyond
the cap — cache hit or miss alike — is absent from the returned map
rather than mapped to `None`. -/
theorem C6_truncates_dedup_list :
    (∀ (addrs : List String) (k ae : ℕ) (cache : Dict)
        (geo : String → Option (ℚ × ℚ)) (a : String),
      a ∈ keysOf (batchGeocode addrs (some k) ae cache geo).results ↔
        a ∈ (dedupAddrs addrs).take k) ∧
    "b" ∉ keysOf (batchGeocode ["a", "b"] (some 1) 20 []
        (fun _ => some (50, 30))).results := by
  refine ⟨fun addrs k ae cache geo a => ?_, by decide⟩
  simpa [truncOpt] using batchGeocode_results_mem addrs (some k) ae cache geo a

/-! ## Claim C5 — token-bucket invariant -/

theorem rlStep_inv (burst rate elapsed t : ℚ) (hb : 0 ≤ burst) (h0 : 0 ≤ t)
    (ht : t ≤ burst) :
    0 ≤ (rlStep burst rate elapsed t).1 ∧ (rlStep burst rate elapsed t).1 ≤ burst := by
  simp only [rlStep]
  split_ifs with hr hc hc
  · refine ⟨?_, ?_⟩
    · simp only
      have := hc
      simp only [ge_iff_le] at this
      linarith
    · simp only
      have hmin : min burst (t + elapsed * rate) ≤ burst := min_le_left _ _
      linarith
  · refine ⟨?_, ?_⟩
    · simp only
      exact le_min hb (by linarith)
    · simp only
      exact min_le_left _ _
  · refine ⟨by simp only; linarith, by simp only; linarith⟩
  · exact ⟨by simp only; linarith, by simp only; linarith⟩

theorem rlRun_inv (burst : ℚ) (steps : List (ℚ × ℚ)) (t : ℚ) (hb : 0 ≤ burst)
    (h0 : 0 ≤ t) (ht : t ≤ burst) :
    0 ≤ rlRun burst steps t ∧ rlRun burst steps t ≤ burst := by
  induction steps generalizing t with
  | nil => exact ⟨h0, ht⟩
  | cons s rest ih =>
    obtain ⟨rate, elapsed⟩ := s
    have h := rlStep_inv burst rate elapsed t hb h0 ht
    simpa only [rlRun] using ih (rlStep burst rate elapsed t).1 h.1 h.2

/-- C5: the token bucket of `acquire_token` (utils.py lines 296-313)
maintains `0 ≤ tokens ≤ capacity`: starting from a full bucket of
`burst` tokens, any sequence of loop iterations — each refilling by
`elapsed * rate` capped at the capacity (only when the refill is
positive) and consuming a token only when at least one is available —
keeps the token count within the bounds, for arbitrary (even negative)
`rate` and `elapsed` values at every iteration. -/
theorem C5_token_bucket_invariant (burst : ℚ) (steps : List (ℚ × ℚ))
    (hb : 0 ≤ burst) :
    0 ≤ rlRun burst steps burst ∧ rlRun burst steps burst ≤ burst :=
  rlRun_inv burst steps burst hb hb (le_refl burst)

/-- C5 witness: the invariant instantiated at `burst = 4` with two
concrete loop iterations. -/
theorem C5_token_bucket_invariant_witness :
    (0 : ℚ) ≤ 4 ∧
      (0 ≤ rlRun 4 [(2, 1), (2, 0)] 4 ∧ rlRun 4 [(2, 1), (2, 0)] 4 ≤ 4) :=
  ⟨by norm_num, C5_token_bucket_invariant 4 [(2, 1), (2, 0)] (by norm_num)⟩

/-! ## Claim C2 — negative caching -/

/-- C2: `geocode_settlement` does write a `NegativeHit` (`None`) into the
cache when the provider reports no result, but the read-back guard
`if cached is not None` cannot distinguish the stored `None` from a
missing key, so a second call for the same address issues a second
network request (contradicting the claim and the code's own
"Cache the failure persistently" comment).  Moreover `batch_geocode`
writes no cache entry at all for a failed resolution: after a failing
batch for `"Kyiv"` the cache has no entry under the address key. -/
theorem C2_negative_cache_not_honored :
    (geocodeSettlement [] "Poltavska" "Xxx" GResp.noResult).network = true ∧
    lookupA "poltavska|xxx"
        (geocodeSettlement [] "Poltavska" "Xxx" GResp.noResult).cache = some pnone ∧
    (geocodeSettlement (geocodeSettlement [] "Poltavska" "Xxx" GResp.noResult).cache
        "Poltavska" "Xxx" GResp.noResult).network = true ∧
    (geocodeSettlement (geocodeSettlement [] "Poltavska" "Xxx" GResp.noResult).cache
        "Poltavska" "Xxx" GResp.noResult).result = pnone ∧
    lookupA (geocodeCacheKey "Kyiv")
        (batchGeocode ["Kyiv"] none 20 [] (fun _ => none)).cache = none :=
  ⟨rfl, rfl, rfl, rfl, rfl⟩

/-! ## Claim C3 — record-level timestamp check -/

/-- C3: with a page-level cache entry stored under `page::p1` holding
coordinates and `last_edited_time = "T1"`, re-presenting the record with
an unchanged timestamp `"T1"` resolves directly from the entry (the fast
path, no network); but re-presenting it with a changed timestamp `"T2"`
does not trigger one new resolution attempt — the loop body falls
through to the address-level fallback, whose first statement reads the
undefined name `_GEOCODE_CACHE` (utils.py line 999) and raises a
`NameError` that the enclosing handler does not catch. -/
theorem C3_stale_timestamp_raises_nameerror :
    resolvePage [("page::p1", pdict [("coords", pdict [("lat", pnum 50), ("lng", pnum 30)]),
        ("last_edited_time", pstr "T1"), ("address", pstr "Kyiv")])] (some "p1") "T1" =
      .ok (some (pnum 50, pnum 30)) ∧
    resolvePage [("page::p1", pdict [("coords", pdict [("lat", pnum 50), ("lng", pnum 30)]),
        ("last_edited_time", pstr "T1"), ("address", pstr "Kyiv")])] (some "p1") "T2" =
      .error .nameError :=
  ⟨rfl, rfl⟩

/-! ## Claim C10 — cache entries never weakened -/

theorem pyTruthy_ne_pnone {v : PyVal} (h : pyTruthy v = true) : v ≠ pnone := by
  intro hv
  subst hv
  simp [pyTruthy] at h

/-- C10: across every cache-mutating step of the geocoding routines
(a `geocode_settlement` call, a `batch_geocode` completion handler, a
page-level entry write), a key holding a successful hit (a value other
than `None`) still holds a non-`None` value afterwards — a `Hit` is
never overwritten with a lookup failure — and a key holding a
`NegativeHit` (`None`) either keeps it or is replaced by a successful
hit. -/
theorem C10_hits_never_weakened (s : CacheStep) (c : Dict) (k : String) :
    (∀ v, lookupA k c = some v → v ≠ pnone →
      ∃ v', lookupA k (applyStep c s) = some v' ∧ v' ≠ pnone) ∧
    (lookupA k c = some pnone →
      lookupA k (applyStep c s) = some pnone ∨
        ∃ v', lookupA k (applyStep c s) = some v' ∧ v' ≠ pnone) := by
  cases s with
  | settle ob st resp =>
    simp only [applyStep, geocodeSettlement]
    by_cases hc : isPNone (mgrGet c (pyLowerStr (ob ++ "|" ++ st))) = true
    · simp only [hc, not_true_eq_false, if_false]
      by_cases hk : k = pyLowerStr (ob ++ "|" ++ st)
      · subst hk
        constructor
        · intro v hv hvne
          exfalso
          simp only [mgrGet, hv, Option.getD_some] at hc
          cases v <;> simp [isPNone] at hc
          exact hvne rfl
        · intro _
          cases resp with
          | okResult la lo =>
            refine Or.inr ⟨ptuple [pnum la, pnum lo], ?_, fun h => nomatch h⟩
            simp [lookupA_setA_self]
          | noResult =>
            left
            simp [lookupA_setA_self]
          | reqError => left; assumption
      · cases resp with
        | okResult la lo =>
          simp only [lookupA_setA_other hk]
          exact ⟨fun v hv hvne => ⟨v, hv, hvne⟩, fun h => Or.inl h⟩
        | noResult =>
          simp only [lookupA_setA_other hk]
          exact ⟨fun v hv hvne => ⟨v, hv, hvne⟩, fun h => Or.inl h⟩
        | reqError => exact ⟨fun v hv hvne => ⟨v, hv, hvne⟩, fun h => Or.inl h⟩
    · simp only [hc, not_false_eq_true, if_true]
      exact ⟨fun v hv hvne => ⟨v, hv, hvne⟩, fun h => Or.inl h⟩
  | batchResult addr v0 =>
    simp only [applyStep]
    by_cases ht : pyTruthy v0 = true
    · simp only [ht, if_true]
      by_cases hk : k = geocodeCacheKey addr
      · subst hk
        have hv0 := pyTruthy_ne_pnone ht
        constructor
        · intro v _ _
          exact ⟨v0, lookupA_setA_self _ _ _, hv0⟩
        · intro _
          exact Or.inr ⟨v0, lookupA_setA_self _ _ _, hv0⟩
      · simp only [lookupA_setA_other hk]
        exact ⟨fun v hv hvne => ⟨v, hv, hvne⟩, fun h => Or.inl h⟩
    · simp only [ht, if_false]
      exact ⟨fun v hv hvne => ⟨v, hv, hvne⟩, fun h => Or.inl h⟩
  | pageWrite pid coords edited place =>
    simp only [applyStep]
    by_cases hk : k = "page::" ++ pid
    · subst hk
      constructor
      · intro v _ _
        exact ⟨_, lookupA_setA_self _ _ _, fun h => nomatch h⟩
      · intro _
        exact Or.inr ⟨_, lookupA_setA_self _ _ _, fun h => nomatch h⟩
    · simp only [lookupA_setA_other hk]
      exact ⟨fun v hv hvne => ⟨v, hv, hvne⟩, fun h => Or.inl h⟩

/-- C10 witness: a concrete cache holding a hit under `"k"`, hit by a
failing `geocode_settlement` step for the same key, keeps a non-`None`
value. -/
theorem C10_hits_never_weakened_witness :
    ∃ v', lookupA "a|b" (applyStep [("a|b", ptuple [pnum 1, pnum 2])]
        (CacheStep.settle "A" "B" GResp.noResult)) = some v' ∧ v' ≠ pnone :=
  (C10_hits_never_weakened (CacheStep.settle "A" "B" GResp.noResult)
      [("a|b", ptuple [pnum 1, pnum 2])] "a|b").1
    (ptuple [pnum 1, pnum 2]) rfl (fun h => nomatch h)

/-! ## Claim C7 — persistence round trip -/

theorem lookupA_eq_none {k : String} {d : Dict} (h : k ∉ keysOf d) :
    lookupA k d = none := by
  induction d with
  | nil => rfl
  | cons kv rest ih =>
    obtain ⟨k', v'⟩ := kv
    simp only [keysOf, List.map_cons, List.mem_cons, not_or] at h
    have hne : ¬ k' = k := fun hh => h.1 hh.symm
    simp only [lookupA, if_neg hne]
    exact ih (by simpa [keysOf] using h.2)

theorem lookupA_perm :
    ∀ {l₁ l₂ : List (String × PyVal)}, l₁.Perm l₂ →
      (l₁.map Prod.fst).Nodup → ∀ k, lookupA k l₁ = lookupA k l₂ := by
  intro l₁ l₂ p
  induction p with
  | nil => intro _ _; rfl
  | cons x p ih =>
    intro nd k
    obtain ⟨kx, vx⟩ := x
    simp only [List.map_cons, List.nodup_cons] at nd
    simp only [lookupA]
    split
    · rfl
    · exact ih nd.2 k
  | swap x y l =>
    intro nd k
    obtain ⟨kx, vx⟩ := x
    obtain ⟨ky, vy⟩ := y
    simp only [List.map_cons, List.nodup_cons, List.mem_cons, not_or] at nd
    have hne : ky ≠ kx := nd.1.1
    simp only [lookupA]
    by_cases hy : ky = k <;> by_cases hx : kx = k
    · exact absurd (hy.trans hx.symm) hne
    · simp [hy, hx]
    · simp [hy, hx]
    · simp [hy, hx]
  | trans p₁ p₂ ih₁ ih₂ =>
    intro nd k
    have ndmid := (p₁.map Prod.fst).nodup_iff.mp nd
    exact (ih₁ nd k).trans (ih₂ ndmid k)

theorem foldl_setA_lookup :
    ∀ (f : List (String × PyVal)) (d : Dict) (k : String),
      (f.map Prod.fst).Nodup →
      lookupA k (f.foldl (fun d kv => setA kv.1 kv.2 d) d) =
        (lookupA k f).or (lookupA k d) := by
  intro f
  induction f with
  | nil => intro d k _; simp [lookupA]
  | cons kv rest ih =>
    intro d k nd
    obtain ⟨k₁, v₁⟩ := kv
    simp only [List.map_cons, List.nodup_cons] at nd
    simp only [List.foldl_cons]
    rw [ih (setA k₁ v₁ d) k nd.2]
    simp only [lookupA]
    by_cases h1 : k₁ = k
    · subst h1
      rw [lookupA_eq_none (d := rest) (by simpa [keysOf] using nd.1)]
      rw [lookupA_setA_self]
      simp
    · rw [lookupA_setA_other (fun hh => h1 hh.symm), if_neg h1]

theorem loadCache_lookup (f : List (String × PyVal)) (k : String)
    (nd : (f.map Prod.fst).Nodup) : lookupA k (loadCache f) = lookupA k f := by
  rw [loadCache, foldl_setA_lookup f [] k nd]
  simp [lookupA]

mutual

theorem jencode_eq_of_tupleFree : ∀ v, tupleFreeB v = true → jencode v = v
  | pnone, _ => rfl
  | pnum _, _ => rfl
  | pstr _, _ => rfl
  | plist xs, h => by
    simp only [tupleFreeB] at h
    simp only [jencode, jencodeL_eq_of_tupleFree xs h]
  | ptuple _, h => by simp [tupleFreeB] at h
  | pdict kvs, h => by
    simp only [tupleFreeB] at h
    simp only [jencode, jencodeKV_eq_of_tupleFree kvs h]

theorem jencodeL_eq_of_tupleFree : ∀ xs, tupleFreeL xs = true → jencodeL xs = xs
  | [], _ => rfl
  | x :: xs, h => by
    simp only [tupleFreeL, Bool.and_eq_true] at h
    simp only [jencodeL, jencode_eq_of_tupleFree x h.1, jencodeL_eq_of_tupleFree xs h.2]

theorem jencodeKV_eq_of_tupleFree :
    ∀ kvs : List (String × PyVal), tupleFreeKV kvs = true → jencodeKV kvs = kvs
  | [], _ => rfl
  | (k, v) :: kvs, h => by
    simp only [tupleFreeKV, Bool.and_eq_true] at h
    simp only [jencodeKV, jencode_eq_of_tupleFree v h.1,
      jencodeKV_eq_of_tupleFree kvs h.2]

end

/-- C7 (amended): for every cache with distinct keys whose stored values
contain no tuples, saving it and reloading the file in any on-disk entry
order yields the same value for every key.  (Tuple-valued entries — the
`(lat, lng)` pairs written by `geocode_settlement` — come back as lists
instead, see the counterexample.) -/
theorem C7_roundtrip_tuplefree (d : Dict) (f : List (String × PyVal))
    (nd : (d.map Prod.fst).Nodup) (tf : tupleFreeKV d = true)
    (hp : (saveCache d).Perm f) (k : String) :
    lookupA k (loadCache f) = lookupA k d := by
  have hsave : saveCache d = d := jencodeKV_eq_of_tupleFree d tf
  rw [hsave] at hp
  have ndf : (f.map Prod.fst).Nodup := (hp.map Prod.fst).nodup_iff.mp nd
  rw [loadCache_lookup f k ndf]
  exact (lookupA_perm hp nd k).symm

/-- C7 witness: a two-entry tuple-free cache reloaded from its reversed
on-disk order yields the stored value. -/
theorem C7_roundtrip_tuplefree_witness :
    lookupA "k2" (loadCache (saveCache [("k1", pdict [("lat", pnum 1)]),
        ("k2", pnone)]).reverse) =
      lookupA "k2" [("k1", pdict [("lat", pnum 1)]), ("k2", pnone)] :=
  C7_roundtrip_tuplefree [("k1", pdict [("lat", pnum 1)]), ("k2", pnone)]
    (saveCache [("k1", pdict [("lat", pnum 1)]), ("k2", pnone)]).reverse
    (by decide) rfl (List.reverse_perm _).symm "k2"

/-- C7 counterexample: a cache entry written as the tuple `(50, 30)` (as
`geocode_settlement` writes them) is read back from a save/load round
trip as the list `[50, 30]`, which is a different Python value — the
reloaded value does not equal what was written. -/
theorem C7_counterexample :
    lookupA "k" (loadCache (saveCache [("k", ptuple [pnum 50, pnum 30])])) =
      some (plist [pnum 50, pnum 30]) ∧
    lookupA "k" [("k", ptuple [pnum 50, pnum 30])] =
      some (ptuple [pnum 50, pnum 30]) ∧
    (plist [pnum 50, pnum 30] : PyVal) ≠ ptuple [pnum 50, pnum 30] :=
  ⟨rfl, rfl, fun h => nomatch h⟩

/-! ## Claim C8 — soft-fail pipeline of `geocode_location` -/

theorem runAttempt_handled (r : Resp) (h : handledFailure r = true) :
    runAttempt r = .ok none := by
  cases r with
  | netError => rfl
  | badJson => rfl
  | ok d =>
    simp only [handledFailure, Bool.not_eq_true'] at h
    simp [runAttempt, h]

theorem tryQueries_handled (oracle : String → Resp)
    (h : ∀ q, handledFailure (oracle q) = true) :
    ∀ qs, tryQueries oracle qs = .ok none := by
  intro qs
  induction qs with
  | nil => rfl
  | cons q rest ih =>
    simp only [tryQueries]
    split
    · exact ih
    · rw [runAttempt_handled (oracle q) (h q)]
      exact ih

/-- C8 (amended): `geocode_location` resolves to `None` and propagates no
exception whenever every provider response is a handled failure —
a request exception (timeout, transport error, non-success status), an
invalid-JSON body, or an empty/falsy result.  A syntactically valid
response whose first result lacks the `lat`/`lon` keys escapes as an
uncaught `KeyError` (see the counterexample), so the soft-fail guarantee
does not extend to every malformed result. -/
theorem C8_soft_fail_on_handled (loc : String) (oracle : String → Resp)
    (h : ∀ q, handledFailure (oracle q) = true) :
    geocodeLocation loc oracle = .ok none := by
  unfold geocodeLocation
  split
  · rfl
  · exact tryQueries_handled oracle h _

/-- C8 witness: a provider that always times out makes
`geocode_location` return `None` for a concrete address. -/
theorem C8_soft_fail_on_handled_witness :
    (∀ q : String, handledFailure ((fun _ => Resp.netError) q) = true) ∧
    geocodeLocation "Київ" (fun _ => Resp.netError) = .ok none :=
  ⟨fun _ => rfl, C8_soft_fail_on_handled "Київ" (fun _ => Resp.netError) (fun _ => rfl)⟩

/-- C8 counterexample: a provider response that is valid JSON with one
result object that lacks the `lat` key (a malformed result) makes
`geocode_location` raise an uncaught `KeyError` instead of returning
`None`: the claim that no exception propagates for every possible
provider response is false of the code. -/
theorem C8_counterexample :
    geocodeLocation "Київ" (fun _ => Resp.ok (JVal.jarr [JVal.jobj []])) =
      .error .keyError :=
  rfl

/-! ## Claim C9 — normalization idempotence and key determinism -/

theorem toNat_ofNat_valid (n : ℕ) (h : n.isValidChar) :
    (Char.ofNat n).toNat = n := by
  rw [Char.ofNat, dif_pos h]
  rfl

theorem pyLowerChar_idem (c : Char) : pyLowerChar (pyLowerChar c) = pyLowerChar c := by
  by_cases h1 : 65 ≤ c.toNat ∧ c.toNat ≤ 90
  · have e1 : pyLowerChar c = Char.ofNat (c.toNat + 32) := by
      rw [pyLowerChar, if_pos h1]
    have ht : (Char.ofNat (c.toNat + 32)).toNat = c.toNat + 32 :=
      toNat_ofNat_valid _ (Or.inl (by omega))
    rw [e1, pyLowerChar, ht, if_neg (by omega), if_neg (by omega), if_neg (by omega),
      if_neg (by omega), if_neg (by omega), if_neg (by omega), if_neg (by omega)]
  · by_cases h2 : 0x410 ≤ c.toNat ∧ c.toNat ≤ 0x42F
    · have e1 : pyLowerChar c = Char.ofNat (c.toNat + 0x20) := by
        rw [pyLowerChar, if_neg h1, if_pos h2]
      have ht : (Char.ofNat (c.toNat + 0x20)).toNat = c.toNat + 0x20 :=
        toNat_ofNat_valid _ (Or.inl (by omega))
      rw [e1, pyLowerChar, ht, if_neg (by omega), if_neg (by omega), if_neg (by omega),
        if_neg (by omega), if_neg (by omega), if_neg (by omega), if_neg (by omega)]
    · by_cases h3 : c.toNat = 0x401
      · have e1 : pyLowerChar c = Char.ofNat 0x451 := by
          rw [pyLowerChar, if_neg h1, if_neg h2, if_pos h3]
        have ht : (Char.ofNat 0x451).toNat = 0x451 :=
          toNat_ofNat_valid _ (Or.inl (by omega))
        rw [e1, pyLowerChar, ht, if_neg (by omega), if_neg (by omega), if_neg (by omega),
          if_neg (by omega), if_neg (by omega), if_neg (by omega), if_neg (by omega)]
      · by_cases h4 : c.toNat = 0x404
        · have e1 : pyLowerChar c = Char.ofNat 0x454 := by
            rw [pyLowerChar, if_neg h1, if_neg h2, if_neg h3, if_pos h4]
          have ht : (Char.ofNat 0x454).toNat = 0x454 :=
            toNat_ofNat_valid _ (Or.inl (by omega))
          rw [e1, pyLowerChar, ht, if_neg (by omega), if_neg (by omega), if_neg (by omega),
            if_neg (by omega), if_neg (by omega), if_neg (by omega), if_neg (by omega)]
        · by_cases h5 : c.toNat = 0x406
          · have e1 : pyLowerChar c = Char.ofNat 0x456 := by
              rw [pyLowerChar, if_neg h1, if_neg h2, if_neg h3, if_neg h4, if_pos h5]
            have ht : (Char.ofNat 0x456).toNat = 0x456 :=
              toNat_ofNat_valid _ (Or.inl (by omega))
            rw [e1, pyLowerChar, ht, if_neg (by omega), if_neg (by omega),
              if_neg (by omega), if_neg (by omega), if_neg (by omega), if_neg (by omega),
              if_neg (by omega)]
          · by_cases h6 : c.toNat = 0x407
            · have e1 : pyLowerChar c = Char.ofNat 0x457 := by
                rw [pyLowerChar, if_neg h1, if_neg h2, if_neg h3, if_neg h4, if_neg h5,
                  if_pos h6]
              have ht : (Char.ofNat 0x457).toNat = 0x457 :=
                toNat_ofNat_valid _ (Or.inl (by omega))
              rw [e1, pyLowerChar, ht, if_neg (by omega), if_neg (by omega),
                if_neg (by omega), if_neg (by omega), if_neg (by omega),
                if_neg (by omega), if_neg (by omega)]
            · by_cases h7 : c.toNat = 0x490
              · have e1 : pyLowerChar c = Char.ofNat 0x491 := by
                  rw [pyLowerChar, if_neg h1, if_neg h2, if_neg h3, if_neg h4, if_neg h5,
                    if_neg h6, if_pos h7]
                have ht : (Char.ofNat 0x491).toNat = 0x491 :=
                  toNat_ofNat_valid _ (Or.inl (by omega))
                rw [e1, pyLowerChar, ht, if_neg (by omega), if_neg (by omega),
                  if_neg (by omega), if_neg (by omega), if_neg (by omega),
                  if_neg (by omega), if_neg (by omega)]
              · have e1 : pyLowerChar c = c := by
                  rw [pyLowerChar, if_neg h1, if_neg h2, if_neg h3, if_neg h4, if_neg h5,
                    if_neg h6, if_neg h7]
                rw [e1]
                exact e1

theorem pyIsSpace_false_of_ge (c : Char) (h : 33 ≤ c.toNat) : pyIsSpace c = false := by
  simp only [pyIsSpace, Bool.or_eq_false_iff, decide_eq_false_iff_not]
  omega

theorem pyLowerChar_space (c : Char) : pyIsSpace (pyLowerChar c) = pyIsSpace c := by
  by_cases h1 : 65 ≤ c.toNat ∧ c.toNat ≤ 90
  · have e1 : pyLowerChar c = Char.ofNat (c.toNat + 32) := by
      rw [pyLowerChar, if_pos h1]
    have ht : (Char.ofNat (c.toNat + 32)).toNat = c.toNat + 32 :=
      toNat_ofNat_valid _ (Or.inl (by omega))
    rw [e1, pyIsSpace_false_of_ge _ (by omega), pyIsSpace_false_of_ge c (by omega)]
  · by_cases h2 : 0x410 ≤ c.toNat ∧ c.toNat ≤ 0x42F
    · have e1 : pyLowerChar c = Char.ofNat (c.toNat + 0x20) := by
        rw [pyLowerChar, if_neg h1, if_pos h2]
      have ht : (Char.ofNat (c.toNat + 0x20)).toNat = c.toNat + 0x20 :=
        toNat_ofNat_valid _ (Or.inl (by omega))
      rw [e1, pyIsSpace_false_of_ge _ (by omega), pyIsSpace_false_of_ge c (by omega)]
    · by_cases h3 : c.toNat = 0x401
      · have e1 : pyLowerChar c = Char.ofNat 0x451 := by
          rw [pyLowerChar, if_neg h1, if_neg h2, if_pos h3]
        have ht : (Char.ofNat 0x451).toNat = 0x451 :=
          toNat_ofNat_valid _ (Or.inl (by omega))
        rw [e1, pyIsSpace_false_of_ge _ (by omega), pyIsSpace_false_of_ge c (by omega)]
      · by_cases h4 : c.toNat = 0x404
        · have e1 : pyLowerChar c = Char.ofNat 0x454 := by
            rw [pyLowerChar, if_neg h1, if_neg h2, if_neg h3, if_pos h4]
          have ht : (Char.ofNat 0x454).toNat = 0x454 :=
            toNat_ofNat_valid _ (Or.inl (by omega))
          rw [e1, pyIsSpace_false_of_ge _ (by omega), pyIsSpace_false_of_ge c (by omega)]
        · by_cases h5 : c.toNat = 0x406
          · have e1 : pyLowerChar c = Char.ofNat 0x456 := by
              rw [pyLowerChar, if_neg h1, if_neg h2, if_neg h3, if_neg h4, if_pos h5]
            have ht : (Char.ofNat 0x456).toNat = 0x456 :=
              toNat_ofNat_valid _ (Or.inl (by omega))
            rw [e1, pyIsSpace_false_of_ge _ (by omega),
              pyIsSpace_false_of_ge c (by omega)]
          · by_cases h6 : c.toNat = 0x407
            · have e1 : pyLowerChar c = Char.ofNat 0x457 := by
                rw [pyLowerChar, if_neg h1, if_neg h2, if_neg h3, if_neg h4, if_neg h5,
                  if_pos h6]
              have ht : (Char.ofNat 0x457).toNat = 0x457 :=
                toNat_ofNat_valid _ (Or.inl (by omega))
              rw [e1, pyIsSpace_false_of_ge _ (by omega),
                pyIsSpace_false_of_ge c (by omega)]
            · by_cases h7 : c.toNat = 0x490
              · have e1 : pyLowerChar c = Char.ofNat 0x491 := by
                  rw [pyLowerChar, if_neg h1, if_neg h2, if_neg h3, if_neg h4, if_neg h5,
                    if_neg h6, if_pos h7]
                have ht : (Char.ofNat 0x491).toNat = 0x491 :=
                  toNat_ofNat_valid _ (Or.inl (by omega))
                rw [e1, pyIsSpace_false_of_ge _ (by omega),
                  pyIsSpace_false_of_ge c (by omega)]
              · have e1 : pyLowerChar c = c := by
                  rw [pyLowerChar, if_neg h1, if_neg h2, if_neg h3, if_neg h4, if_neg h5,
                    if_neg h6, if_neg h7]
                rw [e1]

theorem lower_fix_of_mem_map {c : Char} {l : List Char}
    (h : c ∈ l.map pyLowerChar) : pyLowerChar c = c := by
  obtain ⟨x, _, rfl⟩ := List.mem_map.mp h
  exact pyLowerChar_idem x

theorem map_lower_eq_self {l : List Char} (h : ∀ c ∈ l, pyLowerChar c = c) :
    l.map pyLowerChar = l := by
  induction l with
  | nil => rfl
  | cons c cs ih =>
    simp only [List.map_cons, h c (List.mem_cons_self _ _)]
    rw [ih (fun d hd => h d (List.mem_cons_of_mem _ hd))]

theorem dropWhile_lower_comm (l : List Char) :
    (l.map pyLowerChar).dropWhile pyIsSpace =
      (l.dropWhile pyIsSpace).map pyLowerChar := by
  induction l with
  | nil => rfl
  | cons c cs ih =>
    simp only [List.map_cons, List.dropWhile_cons, pyLowerChar_space c]
    by_cases h : pyIsSpace c = true
    · simp [h, ih]
    · simp [h]

theorem stripL_map_lower (l : List Char) :
    stripL (l.map pyLowerChar) = (stripL l).map pyLowerChar := by
  unfold stripL
  rw [dropWhile_lower_comm, ← List.map_reverse, dropWhile_lower_comm, ← List.map_reverse]

theorem splitWsGo_all_space :
    ∀ (w acc : List Char), (∀ c ∈ w, pyIsSpace c = true) →
      splitWsGo acc w = if acc.isEmpty then [] else [acc.reverse] := by
  intro w
  induction w with
  | nil => intro acc _; rfl
  | cons c cs ih =>
    intro acc hw
    have hc : pyIsSpace c = true := hw c (List.mem_cons_self _ _)
    have hcs : ∀ d ∈ cs, pyIsSpace d = true := fun d hd => hw d (List.mem_cons_of_mem _ hd)
    have h0 : splitWsGo [] cs = [] := by simpa using ih [] hcs
    by_cases ha : acc.isEmpty <;> simp [splitWsGo, hc, ha, h0]

theorem splitWsGo_append_space (w : List Char) (hw : ∀ c ∈ w, pyIsSpace c = true) :
    ∀ (l acc : List Char), splitWsGo acc (l ++ w) = splitWsGo acc l := by
  intro l
  induction l with
  | nil =>
    intro acc
    show splitWsGo acc w = splitWsGo acc []
    rw [splitWsGo_all_space w acc hw]
    rfl
  | cons c cs ih =>
    intro acc
    simp only [List.cons_append, splitWsGo]
    by_cases hc : pyIsSpace c = true
    · simp only [hc, if_true]
      by_cases ha : acc.isEmpty <;> simp [ha, ih]
    · simp only [Bool.not_eq_true] at hc
      simp [hc, ih]

theorem splitWsL_dropWhile (l : List Char) :
    splitWsL (l.dropWhile pyIsSpace) = splitWsL l := by
  induction l with
  | nil => rfl
  | cons c cs ih =>
    rw [List.dropWhile_cons]
    by_cases hc : pyIsSpace c = true
    · rw [if_pos hc, ih]
      simp [splitWsL, splitWsGo, hc]
    · rw [if_neg hc]

theorem splitWsL_strip (l : List Char) : splitWsL (stripL l) = splitWsL l := by
  have hdec : ∀ m : List Char,
      m = (m.reverse.dropWhile pyIsSpace).reverse ++
        (m.reverse.takeWhile pyIsSpace).reverse := by
    intro m
    have h1 := List.takeWhile_append_dropWhile pyIsSpace m.reverse
    have h2 := congrArg List.reverse h1
    rw [List.reverse_append, List.reverse_reverse] at h2
    exact h2.symm
  have hW : ∀ c ∈ ((l.dropWhile pyIsSpace).reverse.takeWhile pyIsSpace).reverse,
      pyIsSpace c = true := by
    intro c hc
    rw [List.mem_reverse] at hc
    exact List.mem_takeWhile_imp hc
  have step1 : splitWsL (stripL l) = splitWsL (l.dropWhile pyIsSpace) := by
    unfold stripL
    conv_rhs => rw [hdec (l.dropWhile pyIsSpace)]
    exact (splitWsGo_append_space _ hW _ []).symm
  rw [step1, splitWsL_dropWhile]

theorem splitWsGo_word :
    ∀ (t : List Char), (∀ c ∈ t, pyIsSpace c = false) →
      ∀ (r acc : List Char), splitWsGo acc (t ++ r) = splitWsGo (t.reverse ++ acc) r := by
  intro t
  induction t with
  | nil => intro _ r acc; simp
  | cons c cs ih =>
    intro ht r acc
    have hc : pyIsSpace c = false := ht c (List.mem_cons_self _ _)
    simp only [List.cons_append, splitWsGo, hc, Bool.false_eq_true, if_false, List.append_eq]
    rw [ih (fun d hd => ht d (List.mem_cons_of_mem _ hd)) r (c :: acc)]
    simp [List.reverse_cons, List.append_assoc]

theorem splitWsL_joinSp :
    ∀ ts : List (List Char),
      (∀ t ∈ ts, t ≠ [] ∧ ∀ c ∈ t, pyIsSpace c = false) →
      splitWsL (joinSp ts) = ts := by
  intro ts
  induction ts with
  | nil => intro _; rfl
  | cons t ts ih =>
    intro h
    obtain ⟨htne, htns⟩ := h t (List.mem_cons_self _ _)
    have hts := fun u hu => h u (List.mem_cons_of_mem _ hu)
    cases ts with
    | nil =>
      have hj : joinSp [t] = t := rfl
      rw [hj]
      unfold splitWsL
      have hw := splitWsGo_word t htns [] []
      rw [List.append_nil] at hw
      rw [hw]
      have hne : (t.reverse ++ []).isEmpty = false := by
        simp [List.isEmpty_iff, htne]
      simp [splitWsGo, hne, htne]
    | cons u us =>
      have hj : joinSp (t :: u :: us) = t ++ ' ' :: joinSp (u :: us) := rfl
      rw [hj]
      unfold splitWsL
      rw [splitWsGo_word t htns _ []]
      rw [List.append_nil]
      have hsp : pyIsSpace ' ' = true := rfl
      have hne : t.reverse.isEmpty = false := by simp [List.isEmpty_iff, htne]
      simp only [splitWsGo, hsp, if_true, hne, Bool.false_eq_true, if_false,
        List.reverse_reverse]
      rw [show splitWsGo [] (joinSp (u :: us)) = splitWsL (joinSp (u :: us)) from rfl]
      rw [ih hts]

theorem splitWsGo_tokens :
    ∀ (l acc : List Char), (∀ c ∈ acc, pyIsSpace c = false) →
      ∀ t ∈ splitWsGo acc l, t ≠ [] ∧ ∀ c ∈ t, pyIsSpace c = false := by
  intro l
  induction l with
  | nil =>
    intro acc hacc t ht
    by_cases ha : acc.isEmpty = true
    · simp [splitWsGo, ha] at ht
    · simp only [splitWsGo, ha, Bool.false_eq_true, if_false] at ht
      rw [List.mem_singleton] at ht
      subst ht
      refine ⟨?_, ?_⟩
      · simp only [ne_eq, List.reverse_eq_nil_iff]
        intro hnil
        rw [hnil] at ha
        exact ha rfl
      · intro c hc
        exact hacc c (List.mem_reverse.mp hc)
  | cons c cs ih =>
    intro acc hacc t ht
    by_cases hc : pyIsSpace c = true
    · simp only [splitWsGo, hc, if_true] at ht
      by_cases ha : acc.isEmpty = true
      · rw [if_pos ha] at ht
        exact ih [] (by intro d hd; cases hd) t ht
      · rw [if_neg ha] at ht
        rcases List.mem_cons.mp ht with h1 | h2
        · subst h1
          refine ⟨?_, ?_⟩
          · simp only [ne_eq, List.reverse_eq_nil_iff]
            intro hnil
            rw [hnil] at ha
            exact ha rfl
          · intro d hd
            exact hacc d (List.mem_reverse.mp hd)
        · exact ih [] (by intro d hd; cases hd) t h2
    · simp only [Bool.not_eq_true] at hc
      simp only [splitWsGo, hc, Bool.false_eq_true, if_false] at ht
      refine ih (c :: acc) ?_ t ht
      intro d hd
      rcases List.mem_cons.mp hd with h1 | h2
      · subst h1; exact hc
      · exact hacc d h2

theorem splitWsGo_chars :
    ∀ (l acc : List Char), ∀ t ∈ splitWsGo acc l, ∀ c ∈ t, c ∈ l ∨ c ∈ acc := by
  intro l
  induction l with
  | nil =>
    intro acc t ht c hc
    by_cases ha : acc.isEmpty = true
    · simp [splitWsGo, ha] at ht
    · simp only [splitWsGo, ha, Bool.false_eq_true, if_false] at ht
      rw [List.mem_singleton] at ht
      subst ht
      exact Or.inr (List.mem_reverse.mp hc)
  | cons b bs ih =>
    intro acc t ht c hc
    by_cases hb : pyIsSpace b = true
    · simp only [splitWsGo, hb, if_true] at ht
      by_cases ha : acc.isEmpty = true
      · rw [if_pos ha] at ht
        rcases ih [] t ht c hc with h1 | h2
        · exact Or.inl (List.mem_cons_of_mem _ h1)
        · cases h2
      · rw [if_neg ha] at ht
        rcases List.mem_cons.mp ht with h1 | h2
        · subst h1
          exact Or.inr (List.mem_reverse.mp hc)
        · rcases ih [] t h2 c hc with h1 | h3
          · exact Or.inl (List.mem_cons_of_mem _ h1)
          · cases h3
    · simp only [Bool.not_eq_true] at hb
      simp only [splitWsGo, hb, Bool.false_eq_true, if_false] at ht
      rcases ih (b :: acc) t ht c hc with h1 | h2
      · exact Or.inl (List.mem_cons_of_mem _ h1)
      · rcases List.mem_cons.mp h2 with h3 | h4
        · exact Or.inl (h3 ▸ List.mem_cons_self _ _)
        · exact Or.inr h4

theorem mem_joinSp :
    ∀ (ts : List (List Char)) (c : Char), c ∈ joinSp ts →
      (∃ t ∈ ts, c ∈ t) ∨ c = ' ' := by
  intro ts
  induction ts with
  | nil => intro c hc; simp [joinSp] at hc
  | cons t ts ih =>
    intro c hc
    cases ts with
    | nil =>
      rw [show joinSp [t] = t from rfl] at hc
      exact Or.inl ⟨t, List.mem_cons_self _ _, hc⟩
    | cons u us =>
      rw [show joinSp (t :: u :: us) = t ++ ' ' :: joinSp (u :: us) from rfl] at hc
      rcases List.mem_append.mp hc with h1 | h2
      · exact Or.inl ⟨t, List.mem_cons_self _ _, h1⟩
      · rcases List.mem_cons.mp h2 with h3 | h4
        · exact Or.inr h3
        · rcases ih c h4 with ⟨u', hu', hcu⟩ | hsp
          · exact Or.inl ⟨u', List.mem_cons_of_mem _ hu', hcu⟩
          · exact Or.inr hsp

theorem normL_idem (l : List Char) : normL (normL l) = normL l := by
  have htoks : ∀ t ∈ splitWsL ((stripL l).map pyLowerChar),
      t ≠ [] ∧ ∀ c ∈ t, pyIsSpace c = false :=
    splitWsGo_tokens _ [] (by intro c hc; cases hc)
  have hlow : ∀ c ∈ joinSp (splitWsL ((stripL l).map pyLowerChar)),
      pyLowerChar c = c := by
    intro c hc
    rcases mem_joinSp _ c hc with ⟨t, ht, hct⟩ | hsp
    · rcases splitWsGo_chars _ [] t ht c hct with h1 | h2
      · exact lower_fix_of_mem_map h1
      · cases h2
    · subst hsp
      decide
  show normL (joinSp (splitWsL ((stripL l).map pyLowerChar))) =
    joinSp (splitWsL ((stripL l).map pyLowerChar))
  unfold normL
  rw [← stripL_map_lower, map_lower_eq_self hlow, splitWsL_strip,
    splitWsL_joinSp _ htoks]

/-- C9: cache-key derivation is pure, deterministic and idempotent — the
normalization of `_geocode_cache_key` (lowercase, whitespace-collapse)
applied twice yields the same string as applying it once, and equal
inputs always produce equal hashed cache keys. -/
theorem C9_key_normalization_idempotent :
    (∀ s : String, normQuery (normQuery s) = normQuery s) ∧
    (∀ q1 q2 : String, q1 = q2 → geocodeCacheKey q1 = geocodeCacheKey q2) := by
  constructor
  · intro s
    unfold normQuery
    exact congrArg String.mk (normL_idem s.data)
  · intro q1 q2 h
    rw [h]

/-- C9 witness: the normalization is idempotent on a concrete mixed-case,
multi-space input, and a concrete repeated input yields equal keys. -/
theorem C9_key_normalization_idempotent_witness :
    normQuery (normQuery "  KyIv   Обл ") = normQuery "  KyIv   Обл " ∧
    geocodeCacheKey "Kyiv" = geocodeCacheKey "Kyiv" :=
  ⟨C9_key_normalization_idempotent.1 "  KyIv   Обл ",
   C9_key_normalization_idempotent.2 "Kyiv" "Kyiv" rfl⟩

end GCN
